import Mathlib

/-!
Verification development for the domain cache synchronization subsystem of the
plesk-api-manager repository (lib/pleskClient.js, class PleskAPIClient).

The JavaScript client is embedded shallowly:

* the MySQL table domain_cache is a list of DomainRow values (the PRIMARY KEY
  uniqueness is carried as a List.Nodup hypothesis where a statement needs it);
* SQL statements become pure functions on that list (the SELECT ... ORDER BY
  becomes a stable insertion sort, INSERT ... ON DUPLICATE KEY UPDATE becomes
  an update-or-append function mirroring the exact column lists of the two
  upsert statements in the source, which differ);
* executeRequest (source lines 74-110) wraps every axios outcome in a
  try/catch and always resolves to a success/failure object, never throwing;
  the model therefore represents the upstream endpoints as total functions
  into ApiResult, the codomain of executeRequest;
* mysql2 write statements can reject; a WriteOracle says, per key, whether a
  given write throws and with which message.  Reads are modelled as reliable
  (read failures only widen the fallback paths and no claim depends on them);
* timestamps (NOW, CURRENT_TIMESTAMP) are abstract Nat instants passed
  explicitly;
* calls to the upstream server and inter-batch sleeps are recorded in an
  event trace so that pacing, ordering and call counts can be stated.
-/

set_option linter.unusedVariables false

namespace PleskCache

/-- Domain status enumeration of the domain_cache table (part_002 line 796):
ENUM of active, suspended, disabled, unknown with default unknown. -/
inductive DomainStatus where
  | active
  | suspended
  | disabled
  | unknown
deriving DecidableEq, Repr

/-- One row of the domain_cache table (part_002 lines 792-808). -/
structure DomainRow where
  id : Nat
  name : String
  status : DomainStatus
  created : Option Nat
  owner : String
  hostingType : String
  wwwRoot : String
  ipAddresses : List String
  lastUpdated : Nat
  syncError : Option String
deriving DecidableEq, Repr

/-- The domain_cache table contents.  The PRIMARY KEY on id is carried as a
Nodup hypothesis on cacheIds where needed. -/
abbrev Cache := List DomainRow

/-- One item of the upstream GET /domains listing response.  Fields that the
client reads with JavaScript or-fallbacks (name or ascii_name, created or
created_at, owner or owner_login) are optional here. -/
structure DomainItem where
  id : Nat
  name : Option String
  asciiName : Option String
  created : Option Nat
  createdAt : Option Nat
  owner : Option String
  ownerLogin : Option String
  hostingType : Option String
  wwwRoot : Option String
  ipAddresses : Option (List String)
deriving DecidableEq, Repr

/-- The normalized result shape produced by executeRequest (part_002 lines
74-110): every outcome, including transport errors and upstream HTTP errors,
is a success or a failure value; executeRequest never throws. -/
inductive ApiResult (α : Type) where
  | success (data : α) (httpStatus : Nat)
  | failure (error : String) (httpStatus : Nat)
deriving DecidableEq, Repr

/-- Behaviour of the upstream Plesk server as seen through executeRequest.
The listing endpoint GET /domains takes the optional name query parameter;
its payload is none when response.data is not an array (the client then uses
an empty list, part_002 line 1077).  The per-domain status endpoint payload
is none when the body has no status field (part_002 lines 941, 1162). -/
structure Upstream where
  listing : Option String → ApiResult (Option (List DomainItem))
  statusOf : Nat → ApiResult (Option DomainStatus)

/-- Oracle for cache write statements: none means the statement succeeds,
some msg means the mysql2 execute call rejects with that message. -/
abbrev WriteOracle := Nat → Option String

/-- Upstream requests issued by the client. -/
inductive UpstreamCall where
  | domains (filt : Option String)
  | status (id : Nat)
deriving DecidableEq, Repr

/-- Observable actions of a sync run: an upstream request or a pacing sleep
of the given number of milliseconds. -/
inductive SyncEvent where
  | call (c : UpstreamCall)
  | sleep (ms : Nat)
deriving DecidableEq, Repr

/-- Ids column of the cache. -/
def cacheIds (c : Cache) : List Nat := c.map (·.id)

/-- Lookup by primary key: the first row whose id matches. -/
def findId (c : Cache) (i : Nat) : Option DomainRow := c.find? fun r => r.id == i

/-- Case-insensitive substring containment: models both the SQL LIKE filter
with percent wildcards under the default case-insensitive MySQL collation
(part_002 lines 1039-1042) and the lowercased String.includes filter of the
test-data fallback (part_002 line 1222). -/
def strContainsCI (hay pat : String) : Bool :=
  let h := hay.toLower.data
  let p := pat.toLower.data
  (List.range (h.length + 1)).any fun i => p.isPrefixOf (h.drop i)

/-- JavaScript truthiness of the nameFilter argument: null, undefined and the
empty string all disable the filter (the source guards with if nameFilter). -/
def nameMatches (filt : Option String) (nm : String) : Bool :=
  match filt with
  | none => true
  | some f => if f.isEmpty then true else strContainsCI nm f

/-- Ordering used by SELECT ... ORDER BY name (part_002 line 1044). -/
def leName (a b : DomainRow) : Prop := a.name ≤ b.name

/-- Ordering used by SELECT ... ORDER BY last_updated ASC (part_002 line 1146). -/
def leUpdated (a b : DomainRow) : Prop := a.lastUpdated ≤ b.lastUpdated

instance : DecidableRel leName := fun a b => inferInstanceAs (Decidable (a.name ≤ b.name))

instance : DecidableRel leUpdated := fun a b => Nat.decLe a.lastUpdated b.lastUpdated

instance : IsTotal DomainRow leName := ⟨fun a b => le_total a.name b.name⟩

instance : IsTrans DomainRow leName := ⟨fun _ _ _ => le_trans⟩

instance : IsTotal DomainRow leUpdated := ⟨fun a b => Nat.le_total _ _⟩

instance : IsTrans DomainRow leUpdated := ⟨fun _ _ _ => Nat.le_trans⟩

/-- Rows in the order ORDER BY name produces them (stable sort). -/
def sortByName (c : Cache) : Cache := List.insertionSort leName c

/-- Rows in the order ORDER BY last_updated ASC produces them (stable sort). -/
def sortByUpdated (c : Cache) : Cache := List.insertionSort leUpdated c

/-- Projection of a cache row into the object shape returned to callers by
getDomainsFromCache (part_002 lines 1049-1058). -/
structure DomainView where
  id : Nat
  name : String
  status : DomainStatus
  created : Option Nat
  owner : String
  hostingType : String
  wwwRoot : String
  ipAddresses : List String
deriving DecidableEq, Repr

/-- Row-to-view projection performed by the rows.map of getDomainsFromCache. -/
def viewOfRow (r : DomainRow) : DomainView :=
  ⟨r.id, r.name, r.status, r.created, r.owner, r.hostingType, r.wwwRoot, r.ipAddresses⟩

/-- getDomainsFromCache (part_002 lines 1028-1063): SELECT star FROM
domain_cache with optional name LIKE filter, ORDER BY name, projected to the
caller-facing shape.  Storage read errors yield an empty list in the source;
reads are modelled reliable. -/
def getDomainsFromCache (cache : Cache) (filt : Option String) : List DomainView :=
  (sortByName (cache.filter fun r => nameMatches filt r.name)).map viewOfRow

/-- updateDomainStatusInCache (part_002 lines 977-985) and the inline UPDATE
of performStatusSync (line 1167): UPDATE domain_cache SET status, last_updated
WHERE id matches.  Only status and last_updated are written. -/
def updateDomainStatusInCache (cache : Cache) (i : Nat) (st : DomainStatus) (now : Nat) : Cache :=
  cache.map fun r => if r.id = i then { r with status := st, lastUpdated := now } else r

/-- Parameter tuple of the nine-column upsert of syncDomainBatch (part_002
lines 950-967): id, name, status, created, owner, hosting_type, www_root,
ip_addresses, sync_error. -/
structure UpsertValues where
  id : Nat
  name : String
  status : DomainStatus
  created : Option Nat
  owner : String
  hostingType : String
  wwwRoot : String
  ipAddresses : List String
  syncError : Option String
deriving DecidableEq, Repr

/-- Row created from the full upsert values; last_updated comes from the
CURRENT_TIMESTAMP default on insert and the explicit assignment on update. -/
def fullRowOfValues (v : UpsertValues) (now : Nat) : DomainRow :=
  ⟨v.id, v.name, v.status, v.created, v.owner, v.hostingType, v.wwwRoot, v.ipAddresses,
    now, v.syncError⟩

/-- The INSERT ... ON DUPLICATE KEY UPDATE of syncDomainBatch (part_002 lines
950-967).  The duplicate branch updates every one of the nine columns plus
last_updated, so an existing row is fully replaced. -/
def upsertFull (cache : Cache) (v : UpsertValues) (now : Nat) : Cache :=
  if cache.any fun r => r.id = v.id then
    cache.map fun r => if r.id = v.id then fullRowOfValues v now else r
  else
    cache ++ [fullRowOfValues v now]

/-- Parameter tuple of the listing upsert of fetchAndStoreDomains (part_002
lines 1085-1100); its column list hardcodes status to the literal unknown and
does not mention sync_error at all. -/
structure ListingValues where
  id : Nat
  name : String
  created : Option Nat
  owner : String
  hostingType : String
  wwwRoot : String
  ipAddresses : List String
deriving DecidableEq, Repr

/-- Row inserted by the listing upsert when the id is new: status is the
literal unknown and sync_error takes its NULL column default. -/
def freshListingRow (v : ListingValues) (now : Nat) : DomainRow :=
  ⟨v.id, v.name, .unknown, v.created, v.owner, v.hostingType, v.wwwRoot, v.ipAddresses,
    now, none⟩

/-- Row produced by the duplicate branch of the listing upsert: name, created,
owner, hosting_type, www_root, ip_addresses and last_updated are refreshed;
status and sync_error are absent from the ON DUPLICATE KEY UPDATE list and
keep their previous values. -/
def refreshListingRow (old : DomainRow) (v : ListingValues) (now : Nat) : DomainRow :=
  { old with
    name := v.name
    created := v.created
    owner := v.owner
    hostingType := v.hostingType
    wwwRoot := v.wwwRoot
    ipAddresses := v.ipAddresses
    lastUpdated := now }

/-- The INSERT ... ON DUPLICATE KEY UPDATE of fetchAndStoreDomains (part_002
lines 1085-1100). -/
def upsertListing (cache : Cache) (v : ListingValues) (now : Nat) : Cache :=
  if cache.any fun r => r.id = v.id then
    cache.map fun r => if r.id = v.id then refreshListingRow r v now else r
  else
    cache ++ [freshListingRow v now]

/-- Field extraction shared by both upsert call sites: name falls back to
ascii_name, owner to owner_login and then the literal admin, hosting_type to
virtual, www_root to the empty string, ip_addresses to the empty array. -/
def listingValuesOfItem (d : DomainItem) : ListingValues :=
  { id := d.id
    name := (d.name.orElse fun _ => d.asciiName).getD ""
    created := d.created.orElse fun _ => d.createdAt
    owner := (d.owner.orElse fun _ => d.ownerLogin).getD "admin"
    hostingType := d.hostingType.getD "virtual"
    wwwRoot := d.wwwRoot.getD ""
    ipAddresses := d.ipAddresses.getD [] }

/-- Values bound by syncDomainBatch (part_002 line 966): same field fallbacks,
except that created additionally falls back to new Date(), i.e. now, and the
computed status and syncError locals are passed through. -/
def batchValuesOfItem (d : DomainItem) (st : DomainStatus) (syncErr : Option String)
    (now : Nat) : UpsertValues :=
  { id := d.id
    name := (d.name.orElse fun _ => d.asciiName).getD ""
    status := st
    created := some ((d.created.orElse fun _ => d.createdAt).getD now)
    owner := (d.owner.orElse fun _ => d.ownerLogin).getD "admin"
    hostingType := d.hostingType.getD "virtual"
    wwwRoot := d.wwwRoot.getD ""
    ipAddresses := d.ipAddresses.getD []
    syncError := syncErr }

/-- Status extraction pattern used at both status call sites (part_002 lines
941-943 and 1161-1164): the fetched status when the request succeeded and the
body carries a status field, otherwise unknown. -/
def statusFromResult : ApiResult (Option DomainStatus) → DomainStatus
  | .success (some s) _ => s
  | .success none _ => .unknown
  | .failure _ _ => .unknown

/-- Sequential processing of the items of one batch: the inner for-of loops of
performStatusSync (part_002 lines 1157-1173) and syncDomainBatch (933-971).
Each step returns the cache after the item and the events it emitted. -/
def processSeq {α : Type} (step : Cache → α → Cache × List SyncEvent) :
    List α → Cache → Cache × List SyncEvent
  | [], c => (c, [])
  | x :: xs, c =>
    let p := step c x
    let q := processSeq step xs p.1
    (q.1, p.2 ++ q.2)

/-- The batch loop shared by performStatusSync (part_002 lines 1154-1180) and
performBackgroundSync (909-920): slice the work list into batches of bsz
items, process each batch sequentially, and sleep delayMs between batches,
skipping the sleep after the last batch (the i + batchSize < length guard). -/
def runBatches {α : Type} (step : Cache → α → Cache × List SyncEvent)
    (bsz : Nat) (hb : 0 < bsz) (delayMs : Nat) :
    List α → Cache → Cache × List SyncEvent
  | [], c => (c, [])
  | x :: xs, c =>
    let batch := (x :: xs).take bsz
    let rest := (x :: xs).drop bsz
    let p := processSeq step batch c
    if rest.isEmpty then p
    else
      let q := runBatches step bsz hb delayMs rest p.1
      (q.1, p.2 ++ SyncEvent.sleep delayMs :: q.2)
termination_by l _ => l.length
decreasing_by
  simp only [List.length_drop, List.length_cons]
  omega

/-- The batches the loop slices a work list into. -/
def batchChunks {α : Type} (bsz : Nat) (hb : 0 < bsz) : List α → List (List α)
  | [] => []
  | x :: xs => (x :: xs).take bsz :: batchChunks bsz hb ((x :: xs).drop bsz)
termination_by l => l.length
decreasing_by
  simp only [List.length_drop, List.length_cons]
  omega

/-- Event blocks joined with a single inter-batch sleep between consecutive
blocks and no trailing sleep. -/
def joinSep (delayMs : Nat) (blocks : List (List SyncEvent)) : List SyncEvent :=
  (blocks.intersperse [SyncEvent.sleep delayMs]).flatten

/-- Recognizer for pacing sleeps. -/
def isSleep : SyncEvent → Bool
  | .sleep _ => true
  | .call _ => false

/-- Number of pacing sleeps in a trace. -/
def sleepCount (ev : List SyncEvent) : Nat := (ev.filter isSleep).length

/-- Per-item body of performStatusSync (part_002 lines 1157-1173): fetch the
status through executeRequest (which cannot throw), then UPDATE status and
last_updated for that id.  A rejected UPDATE is caught by the per-item catch,
logged and swallowed, leaving the cache unchanged; processing continues. -/
def statusStep (u : Upstream) (w : WriteOracle) (now : Nat)
    (c : Cache) (r : DomainRow) : Cache × List SyncEvent :=
  let st := statusFromResult (u.statusOf r.id)
  (match w r.id with
   | some _ => c
   | none => updateDomainStatusInCache c r.id st now,
   [SyncEvent.call (.status r.id)])

/-- performStatusSync (part_002 lines 1137-1187): SELECT all cached rows
ORDER BY last_updated ASC, then process them in batches of 5 with a 3000 ms
sleep between batches.  The surrounding try/catch means the run never throws
to its caller. -/
def performStatusSync (u : Upstream) (w : WriteOracle) (cache : Cache) (now : Nat) :
    Cache × List SyncEvent :=
  runBatches (statusStep u w now) 5 (by decide) 3000 (sortByUpdated cache) cache

/-- Per-item body of syncDomainBatch (part_002 lines 933-971): fetch the
status, then run the full nine-column upsert.  The inner catch that would set
syncError from a thrown status fetch is unreachable because executeRequest
always resolves, so sync_error is written as NULL; a rejected upsert is
caught by the per-item catch and swallowed. -/
def batchStep (u : Upstream) (w : WriteOracle) (now : Nat)
    (c : Cache) (d : DomainItem) : Cache × List SyncEvent :=
  let st := statusFromResult (u.statusOf d.id)
  (match w d.id with
   | some _ => c
   | none => upsertFull c (batchValuesOfItem d st none now) now,
   [SyncEvent.call (.status d.id)])

/-- performBackgroundSync (part_002 lines 889-927): fetch the full listing;
on failure the thrown error is caught by the outer catch and the run ends.
On success the listing items are processed in batches of 10 with a 2000 ms
sleep between batches, upserting each item via syncDomainBatch. -/
def performBackgroundSync (u : Upstream) (w : WriteOracle) (cache : Cache) (now : Nat) :
    Cache × List SyncEvent :=
  match u.listing none with
  | .failure _ _ => (cache, [SyncEvent.call (.domains none)])
  | .success payload _ =>
    let domains := payload.getD []
    let p := runBatches (batchStep u w now) 10 (by decide) 2000 domains cache
    (p.1, SyncEvent.call (.domains none) :: p.2)

/-- Result shape of fetchAndStoreDomains: a count on success, an explicit
error object on failure (part_002 lines 1106, 1109). -/
inductive FetchResult where
  | ok (count : Nat)
  | err (msg : String)
deriving DecidableEq, Repr

/-- The storing loop of fetchAndStoreDomains (part_002 lines 1084-1101).
There is no per-item catch here: the first rejected upsert aborts the loop
and the partial writes stay in place; the write oracle is indexed by loop
position. -/
def storeLoop (w : WriteOracle) (now : Nat) :
    List DomainItem → Nat → Cache → Option String × Cache
  | [], _, c => (none, c)
  | d :: ds, i, c =>
    match w i with
    | some e => (some e, c)
    | none => storeLoop w now ds (i + 1) (upsertListing c (listingValuesOfItem d) now)

/-- fetchAndStoreDomains (part_002 lines 1068-1111): GET /domains, then store
every item with the listing upsert.  Returns the fetched count on success; a
listing failure or a rejected write is caught and returned as an explicit
error result.  The function never throws. -/
def fetchAndStoreDomains (u : Upstream) (w : WriteOracle) (cache : Cache) (now : Nat) :
    FetchResult × Cache × List SyncEvent :=
  match u.listing none with
  | .failure e _ => (.err e, cache, [SyncEvent.call (.domains none)])
  | .success payload _ =>
    let domains := payload.getD []
    match storeLoop w now domains 0 cache with
    | (some e, c) => (.err e, c, [SyncEvent.call (.domains none)])
    | (none, c) => (.ok domains.length, c, [SyncEvent.call (.domains none)])

/-- Result shape of the cache facade listDomains and of getTestDomains.  The
fromCache annotation is optional because the test-data fallback (part_002
lines 1225-1229) and the plain forwarder omit the field. -/
structure ListDomainsResult where
  success : Bool
  data : List DomainView
  message : String
  fromCache : Option Bool
deriving DecidableEq, Repr

/-- The static fallback dataset of getTestDomains (part_002 lines 1193-1218),
with timestamps and dotted addresses abstracted to the model types.  The
source objects carry no hosting_type or www_root fields; those project to the
empty string. -/
def testDomains : List DomainView :=
  [⟨1, "example.com", .active, some 20240115, "admin", "", "", ["192.168.1.100"]⟩,
   ⟨2, "test.org", .suspended, some 20240201, "client1", "", "", ["192.168.1.101"]⟩,
   ⟨45, "afinformatica.spot4all.com", .suspended, some 20240310, "client3", "", "",
     ["192.168.1.103"]⟩]

/-- getTestDomains (part_002 lines 1192-1230): the static dataset filtered by
the same case-insensitive substring predicate, tagged only by its message. -/
def getTestDomains (filt : Option String) : ListDomainsResult :=
  { success := true
    data := testDomains.filter fun d => nameMatches filt d.name
    message := "Retrieved domains from test data (Plesk unavailable)"
    fromCache := none }

/-- The cache facade listDomains (part_002 lines 125-165): read through the
cache; on a miss fetch and store the listing, falling back to the static test
data when that fails; on success re-read the cache, kick off the background
status sync without awaiting it, and annotate the response with fromCache.
Returns the result, the cache afterwards, whether the background status sync
was triggered, and the upstream calls made synchronously. -/
def listDomainsFacade (u : Upstream) (w : WriteOracle) (cache : Cache)
    (filt : Option String) (now : Nat) :
    ListDomainsResult × Cache × Bool × List SyncEvent :=
  let cached := getDomainsFromCache cache filt
  if cached.length > 0 then
    ({ success := true
       data := cached
       message := "Retrieved " ++ toString cached.length ++ " domains from cache"
       fromCache := some true }, cache, false, [])
  else
    match fetchAndStoreDomains u w cache now with
    | (.err _, c, ev) => (getTestDomains filt, c, false, ev)
    | (.ok _, c, ev) =>
      let domains := getDomainsFromCache c filt
      ({ success := true
         data := domains
         message := "Retrieved " ++ toString domains.length ++ " domains, status sync in progress"
         fromCache := some false }, c, true, ev)

/-- The second, duplicate listDomains of the class (part_002 lines 698-704):
a plain forwarder that issues GET /domains with the optional name query and
returns the executeRequest result untouched.  It never reads the cache. -/
def listDomainsForwarder (u : Upstream) (filt : Option String) :
    ApiResult (Option (List DomainItem)) × List SyncEvent :=
  let f : Option String :=
    match filt with
    | none => none
    | some s => if s.isEmpty then none else some s
  (u.listing f, [SyncEvent.call (.domains f)])

/-- JavaScript class bodies install methods in order, so when two methods
share a name the later definition wins.  PleskAPIClient defines listDomains
at lines 125 and 698 of part_002; the method actually installed on the
prototype, and the one the route layer calls (routes/plesk/domains.js line
152), is the plain forwarder.  The cache facade at lines 125-165 is dead
code. -/
def listDomains (u : Upstream) (filt : Option String) :
    ApiResult (Option (List DomainItem)) × List SyncEvent :=
  listDomainsForwarder u filt

/-- refreshDomains (part_002 lines 1235-1255): DELETE FROM domain_cache, then
fetchAndStoreDomains, and on success kick off the background status sync.
Returns the fetch result, the cache afterwards, whether the status sync was
triggered, and the upstream calls made.  The DELETE is modelled reliable. -/
def refreshDomains (u : Upstream) (w : WriteOracle) (cache : Cache) (now : Nat) :
    FetchResult × Cache × Bool × List SyncEvent :=
  match fetchAndStoreDomains u w ([] : Cache) now with
  | (.ok n, c, ev) => (.ok n, c, true, ev)
  | (.err e, c, ev) => (.err e, c, false, ev)

/-- State of the status-sync guard: the statusSyncRunning field of the client
plus a ghost counter of runs currently in flight. -/
structure SyncGuardState where
  statusSyncRunning : Bool
  activeRuns : Nat
deriving DecidableEq, Repr

/-- Events at the guard.  startStatusSync (part_002 lines 1116-1132) checks
and sets the flag with no await in between, so on the single-threaded event
loop the check-and-set is one atomic step; settle is the promise settling,
with ok recording whether the run succeeded or failed. -/
inductive SyncGuardOp where
  | start
  | settle (ok : Bool)
deriving DecidableEq, Repr

/-- Guard transition: start is a logged no-op while the flag is set,
otherwise it sets the flag and launches a run; settle runs the finally
handler, which clears the flag whether the run succeeded or failed. -/
def syncGuardStep (s : SyncGuardState) : SyncGuardOp → SyncGuardState
  | .start =>
    if s.statusSyncRunning then s
    else { statusSyncRunning := true, activeRuns := s.activeRuns + 1 }
  | .settle _ => { statusSyncRunning := false, activeRuns := s.activeRuns - 1 }

/-- Initial guard state: the field is undefined (falsy) and no run exists. -/
def syncGuardInit : SyncGuardState := ⟨false, 0⟩

/-- Guard state after a sequence of events from startup. -/
def runSyncGuard (ops : List SyncGuardOp) : SyncGuardState :=
  ops.foldl syncGuardStep syncGuardInit

/-! Shared demo data used by the concrete evaluations below. -/

/-- A populated cache row: id 1, example.com, enriched to active. -/
def demoRow : DomainRow :=
  ⟨1, "example.com", .active, some 20240115, "admin", "virtual", "", ["192.168.1.100"], 3, none⟩

/-- An upstream listing item for a domain that is not in the demo cache. -/
def demoItem : DomainItem :=
  ⟨7, some "newdomain.net", none, none, none, some "admin", none, some "virtual", some "",
    some []⟩

/-- A healthy upstream: the listing returns the single demo item and every
status probe answers active. -/
def demoUpstream : Upstream :=
  { listing := fun _ => .success (some [demoItem]) 200
    statusOf := fun _ => .success (some .active) 200 }

/-- Write oracle under which every cache write succeeds. -/
def wAll : WriteOracle := fun _ => none

/-- Number of rows carrying a given id. -/
def countId (c : Cache) (i : Nat) : Nat := (c.filter fun r => r.id == i).length

/-- A second demo row, left untouched by the C8 witness update. -/
def demoRowB : DomainRow :=
  ⟨2, "test.org", .suspended, some 20240201, "client1", "virtual", "", ["192.168.1.101"], 4,
    some "stale probe"⟩

/-- First witness upsert values: id 4, original name. -/
def wValuesA : UpsertValues := ⟨4, "a.com", .active, none, "admin", "virtual", "", [], none⟩

/-- Second witness upsert values: same id, different name and fields. -/
def wValuesB : UpsertValues :=
  ⟨4, "b.com", .suspended, some 5, "client", "virtual", "", ["10.0.0.1"], some "probe"⟩

/-- Five cached rows for the partial-failure witness, matching the spec test
of a batch of five ids. -/
def wRowsFive : Cache :=
  [⟨1, "a1.com", .unknown, none, "admin", "virtual", "", [], 1, none⟩,
   ⟨2, "a2.com", .unknown, none, "admin", "virtual", "", [], 2, none⟩,
   ⟨3, "a3.com", .unknown, none, "admin", "virtual", "", [], 3, none⟩,
   ⟨4, "a4.com", .unknown, none, "admin", "virtual", "", [], 4, none⟩,
   ⟨5, "a5.com", .unknown, none, "admin", "virtual", "", [], 5, none⟩]

/-- The fourth witness row, whose fetch succeeds. -/
def wRowFour : DomainRow := ⟨4, "a4.com", .unknown, none, "admin", "virtual", "", [], 4, none⟩

/-- Upstream for the partial-failure witness: the status fetch for id 3
fails, every other id answers suspended. -/
def wFailThree : Upstream :=
  { listing := fun _ => .success (some []) 200
    statusOf := fun i => if i = 3 then .failure "boom" 500 else .success (some .suspended) 200 }

/-- Upstream whose status endpoint always fails with the message boom. -/
def cexFailUpstream : Upstream :=
  { listing := fun _ => .success (some []) 200
    statusOf := fun _ => .failure "boom" 500 }

/-- Listing item for the combined-sync half of the C2 witness. -/
def wItemNine : DomainItem := ⟨9, some "w9.com", none, none, none, none, none, none, none, none⟩

/-- A previously cached and fully enriched row for the C3 counterexample:
same id 7 as the demo listing item, status active, a recorded sync error. -/
def cexPrevRow : DomainRow :=
  ⟨7, "old.net", .active, none, "admin", "virtual", "", [], 1, some "stale"⟩

/-- A new listing item, id 1, for the C3 witness. -/
def wItemOne : DomainItem :=
  ⟨1, some "fresh.net", none, none, none, none, none, none, none, none⟩

/-- A stale seeded row, id 99, absent from the fresh upstream listing. -/
def staleRow : DomainRow :=
  ⟨99, "stale.example", .active, none, "admin", "virtual", "", [], 1, none⟩

/-! Guard lemmas shared by the mutual-exclusion and flag-invariant
theorems. -/

/-- One guard step preserves the relation between the ghost run counter and
the statusSyncRunning flag. -/
theorem syncGuard_inv_step (s : SyncGuardState) (op : SyncGuardOp)
    (h : s.activeRuns = if s.statusSyncRunning then 1 else 0) :
    (syncGuardStep s op).activeRuns =
      if (syncGuardStep s op).statusSyncRunning then 1 else 0 := by
  cases op with
  | start =>
    by_cases hr : s.statusSyncRunning <;> simp [syncGuardStep, hr] at h ⊢ <;> omega
  | settle ok =>
    by_cases hr : s.statusSyncRunning <;> simp [syncGuardStep, hr] at h ⊢ <;> omega

/-- The guard invariant is inductive along any event sequence. -/
theorem syncGuard_inv_fold (ops : List SyncGuardOp) :
    ∀ s : SyncGuardState, s.activeRuns = (if s.statusSyncRunning then 1 else 0) →
      (ops.foldl syncGuardStep s).activeRuns =
        if (ops.foldl syncGuardStep s).statusSyncRunning then 1 else 0 := by
  induction ops with
  | nil => intro s h; simpa using h
  | cons op rest ih => intro s h; exact ih _ (syncGuard_inv_step s op h)

/-- C4: for any sequence of start and settle events at the status-sync guard
starting from client construction, at most one background status-sync run is
active at any point, and a start issued while the flag is set (a run is
active) is a no-op that leaves the state untouched, matching the early
return of startStatusSync (part_002 lines 1117-1120). -/
theorem statusSync_mutual_exclusion :
    (∀ ops : List SyncGuardOp, (runSyncGuard ops).activeRuns ≤ 1) ∧
    (∀ n : Nat, syncGuardStep ⟨true, n⟩ .start = ⟨true, n⟩) := by
  constructor
  · intro ops
    have h := syncGuard_inv_fold ops syncGuardInit (by simp [syncGuardInit])
    rw [runSyncGuard] at *
    by_cases hr : (ops.foldl syncGuardStep syncGuardInit).statusSyncRunning <;>
      simp [hr] at h <;> omega
  · intro n
    simp [syncGuardStep]

/-- C10: the guard flag is true exactly while a run is in flight (the ghost
counter equals one exactly when statusSyncRunning is set, along every event
sequence from startup); launching from an idle guard sets the flag in the
same atomic step that starts the run; and settling a run clears the flag the
same way whether the run succeeded or failed, because the finally handler of
startStatusSync (part_002 lines 1129-1131) runs in both cases, so the guard
is never left stuck. -/
theorem statusSync_guard_flag_invariant :
    (∀ ops : List SyncGuardOp,
       (runSyncGuard ops).activeRuns =
         if (runSyncGuard ops).statusSyncRunning then 1 else 0) ∧
    (∀ n : Nat, syncGuardStep ⟨false, n⟩ .start = ⟨true, n + 1⟩) ∧
    (∀ (s : SyncGuardState) (ok : Bool),
       (syncGuardStep s (.settle ok)).statusSyncRunning = false) ∧
    (∀ s : SyncGuardState, syncGuardStep s (.settle true) = syncGuardStep s (.settle false)) := by
  refine ⟨fun ops => syncGuard_inv_fold ops syncGuardInit (by simp [syncGuardInit]),
    fun n => by simp [syncGuardStep], fun s ok => by cases ok <;> simp [syncGuardStep],
    fun s => by simp [syncGuardStep]⟩

/-- C8: the narrow status update touches only the status and lastUpdated
fields of rows with the given id; every other field of every row, the shape
of the table, and every row with a different id are unchanged. -/
theorem upsertStatus_frame (cache : Cache) (i : Nat) (st : DomainStatus) (now : Nat) :
    (updateDomainStatusInCache cache i st now).length = cache.length ∧
    ∀ (k : Nat) (h1 : k < cache.length)
      (h2 : k < (updateDomainStatusInCache cache i st now).length),
      ((updateDomainStatusInCache cache i st now).get ⟨k, h2⟩).id = (cache.get ⟨k, h1⟩).id ∧
      ((updateDomainStatusInCache cache i st now).get ⟨k, h2⟩).name = (cache.get ⟨k, h1⟩).name ∧
      ((updateDomainStatusInCache cache i st now).get ⟨k, h2⟩).created
        = (cache.get ⟨k, h1⟩).created ∧
      ((updateDomainStatusInCache cache i st now).get ⟨k, h2⟩).owner = (cache.get ⟨k, h1⟩).owner ∧
      ((updateDomainStatusInCache cache i st now).get ⟨k, h2⟩).hostingType
        = (cache.get ⟨k, h1⟩).hostingType ∧
      ((updateDomainStatusInCache cache i st now).get ⟨k, h2⟩).wwwRoot
        = (cache.get ⟨k, h1⟩).wwwRoot ∧
      ((updateDomainStatusInCache cache i st now).get ⟨k, h2⟩).ipAddresses
        = (cache.get ⟨k, h1⟩).ipAddresses ∧
      ((updateDomainStatusInCache cache i st now).get ⟨k, h2⟩).syncError
        = (cache.get ⟨k, h1⟩).syncError ∧
      ((cache.get ⟨k, h1⟩).id ≠ i →
        (updateDomainStatusInCache cache i st now).get ⟨k, h2⟩ = cache.get ⟨k, h1⟩) := by
  refine ⟨List.length_map _ _, ?_⟩
  intro k h1 h2
  simp only [updateDomainStatusInCache, List.get_eq_getElem, List.getElem_map]
  by_cases hid : cache[k].id = i <;> simp [hid]

/-- Witness for C8 at a concrete cache: updating the status of id 2 leaves
the name, owner and ipAddresses of the row at position 0 (id 1) untouched,
and in fact the whole row. -/
theorem upsertStatus_frame_witness :
    ((updateDomainStatusInCache [demoRow, demoRowB] 2 DomainStatus.disabled 9).get
        ⟨0, by decide⟩).name = (([demoRow, demoRowB] : Cache).get ⟨0, by decide⟩).name ∧
    ((updateDomainStatusInCache [demoRow, demoRowB] 2 DomainStatus.disabled 9).get
        ⟨0, by decide⟩).owner = (([demoRow, demoRowB] : Cache).get ⟨0, by decide⟩).owner ∧
    ((updateDomainStatusInCache [demoRow, demoRowB] 2 DomainStatus.disabled 9).get
        ⟨0, by decide⟩).ipAddresses
      = (([demoRow, demoRowB] : Cache).get ⟨0, by decide⟩).ipAddresses :=
  ⟨((upsertStatus_frame [demoRow, demoRowB] 2 DomainStatus.disabled 9).2 0 (by decide)
      (by decide)).2.1,
   ((upsertStatus_frame [demoRow, demoRowB] 2 DomainStatus.disabled 9).2 0 (by decide)
      (by decide)).2.2.2.1,
   ((upsertStatus_frame [demoRow, demoRowB] 2 DomainStatus.disabled 9).2 0 (by decide)
      (by decide)).2.2.2.2.2.2.1⟩

/-- C1 (code bug): with a populated cache holding a matching record, the
shadowed facade behaves as the claim describes (fromCache true, no upstream
call, the cached record returned), but the listDomains method the class
actually exposes is the later duplicate definition, which issues the
upstream GET /domains regardless of cache state and returns the raw upstream
payload with no fromCache annotation, never reading the cache. -/
theorem listDomains_shadowing_bug :
    (listDomainsFacade demoUpstream wAll [demoRow] none 9).1.fromCache = some true ∧
    (listDomainsFacade demoUpstream wAll [demoRow] none 9).1.data = [viewOfRow demoRow] ∧
    (listDomainsFacade demoUpstream wAll [demoRow] none 9).2.2.2 = [] ∧
    (listDomains demoUpstream none).2 = [SyncEvent.call (.domains none)] ∧
    (listDomains demoUpstream none).1 = .success (some [demoItem]) 200 := by
  exact ⟨rfl, rfl, rfl, rfl, rfl⟩

/-! Primary-key lemmas for the cache operations. -/

/-- A lookup misses exactly when no row carries the id. -/
theorem findId_eq_none_iff (c : Cache) (i : Nat) :
    findId c i = none ↔ ∀ r ∈ c, r.id ≠ i := by
  simp [findId, List.find?_eq_none]

/-- The duplicate-detection test of the upserts, phrased over the id column. -/
theorem any_id_iff (c : Cache) (i : Nat) :
    (c.any fun r => r.id = i) = true ↔ i ∈ cacheIds c := by
  simp [List.any_eq_true, cacheIds, List.mem_map]

/-- Row count by id agrees with the multiplicity of the id in the id column. -/
theorem countId_eq_count (c : Cache) (i : Nat) : countId c i = (cacheIds c).count i := by
  induction c with
  | nil => rfl
  | cons a t ih =>
    by_cases h : a.id = i
    · simp only [countId, cacheIds, List.map_cons, List.filter_cons, List.count_cons] at ih ⊢
      simp [h, ih]
    · simp only [countId, cacheIds, List.map_cons, List.filter_cons, List.count_cons] at ih ⊢
      simp [h, ih]

/-- Lookup after a keyed in-place map update, at the updated key: the stored
row is transformed, provided the update preserves the key. -/
theorem findId_mapUpd_self (c : Cache) (j : Nat) (upd : DomainRow → DomainRow)
    (hupd : ∀ r : DomainRow, r.id = j → (upd r).id = j) :
    findId (c.map fun r => if r.id = j then upd r else r) j = (findId c j).map upd := by
  induction c with
  | nil => rfl
  | cons a t ih =>
    simp only [findId, List.map_cons] at ih ⊢
    by_cases h : a.id = j
    · rw [if_pos h]
      rw [List.find?_cons_of_pos _ (by simp [hupd a h]), List.find?_cons_of_pos _ (by simp [h])]
      rfl
    · rw [if_neg h]
      rw [List.find?_cons_of_neg _ (by simp [h]), List.find?_cons_of_neg _ (by simp [h])]
      exact ih

/-- Lookup after a keyed in-place map update, at any other key: unchanged. -/
theorem findId_mapUpd_other (c : Cache) (j i : Nat) (upd : DomainRow → DomainRow)
    (hupd : ∀ r : DomainRow, r.id = j → (upd r).id = j) (hne : i ≠ j) :
    findId (c.map fun r => if r.id = j then upd r else r) i = findId c i := by
  induction c with
  | nil => rfl
  | cons a t ih =>
    simp only [findId, List.map_cons] at ih ⊢
    by_cases h : a.id = j
    · have h1 : (upd a).id ≠ i := by rw [hupd a h]; exact fun hc => hne hc.symm
      have h2 : a.id ≠ i := by rw [h]; exact fun hc => hne hc.symm
      rw [if_pos h]
      rw [List.find?_cons_of_neg _ (by simp [h1]), List.find?_cons_of_neg _ (by simp [h2])]
      exact ih
    · rw [if_neg h]
      by_cases h3 : a.id = i
      · rw [List.find?_cons_of_pos _ (by simp [h3]), List.find?_cons_of_pos _ (by simp [h3])]
      · rw [List.find?_cons_of_neg _ (by simp [h3]), List.find?_cons_of_neg _ (by simp [h3])]
        exact ih

/-- Ids after the full upsert: unchanged when the id was present, the new id
appended otherwise. -/
theorem cacheIds_upsertFull (c : Cache) (v : UpsertValues) (now : Nat) :
    cacheIds (upsertFull c v now) =
      if c.any (fun r => r.id = v.id) then cacheIds c else cacheIds c ++ [v.id] := by
  by_cases h : c.any (fun r => r.id = v.id)
  · simp [upsertFull, h, cacheIds]
    intro r hr
    by_cases h2 : r.id = v.id <;> simp [h2, fullRowOfValues]
  · simp [upsertFull, h, cacheIds, fullRowOfValues]

/-- The full upsert preserves primary-key uniqueness. -/
theorem nodup_upsertFull (c : Cache) (v : UpsertValues) (now : Nat)
    (hnd : (cacheIds c).Nodup) : (cacheIds (upsertFull c v now)).Nodup := by
  rw [cacheIds_upsertFull]
  by_cases h : c.any (fun r => r.id = v.id)
  · simpa [h] using hnd
  · have hnm : v.id ∉ cacheIds c := fun hm => h ((any_id_iff c v.id).2 hm)
    simp [h, List.nodup_append, hnd, List.Disjoint]
    intro a ha hav
    exact hnm (hav ▸ ha)

/-- After the full upsert, a lookup at the upserted id returns exactly the
row built from the upsert values. -/
theorem findId_upsertFull_self (c : Cache) (v : UpsertValues) (now : Nat) :
    findId (upsertFull c v now) v.id = some (fullRowOfValues v now) := by
  by_cases h : c.any (fun r => r.id = v.id)
  · rw [upsertFull, if_pos h]
    rw [findId_mapUpd_self c v.id (fun _ => fullRowOfValues v now) (fun r _ => rfl)]
    obtain ⟨r, hr, hrid⟩ := List.any_eq_true.1 h
    cases hfind : findId c v.id with
    | none =>
      exact absurd (show r.id = v.id by simpa using hrid)
        ((findId_eq_none_iff c v.id).1 hfind r hr)
    | some old => rfl
  · rw [upsertFull, if_neg h, findId, List.find?_append]
    have hn : findId c v.id = none := by
      rw [findId_eq_none_iff]
      intro r hr hrid
      exact h (List.any_eq_true.2 ⟨r, hr, by simpa using hrid⟩)
    rw [findId] at hn
    simp [hn, fullRowOfValues]

/-- The full upsert leaves lookups at every other id unchanged. -/
theorem findId_upsertFull_other (c : Cache) (v : UpsertValues) (now i : Nat)
    (hne : i ≠ v.id) : findId (upsertFull c v now) i = findId c i := by
  by_cases h : c.any (fun r => r.id = v.id)
  · rw [upsertFull, if_pos h]
    exact findId_mapUpd_other c v.id i (fun _ => fullRowOfValues v now) (fun r _ => rfl) hne
  · rw [upsertFull, if_neg h, findId, List.find?_append]
    have : ((fullRowOfValues v now).id == i) = false := by
      simp [fullRowOfValues]
      exact fun hc => hne hc.symm
    simp [List.find?, this, findId]

/-- After the listing upsert, a lookup at the upserted id returns the
refreshed old row when the id was cached, else the fresh unknown-status
row. -/
theorem findId_upsertListing_self (c : Cache) (v : ListingValues) (now : Nat) :
    findId (upsertListing c v now) v.id =
      some (match findId c v.id with
            | some old => refreshListingRow old v now
            | none => freshListingRow v now) := by
  by_cases h : c.any (fun r => r.id = v.id)
  · rw [upsertListing, if_pos h]
    rw [findId_mapUpd_self c v.id (fun r => refreshListingRow r v now) (fun r hr => hr)]
    obtain ⟨r, hr, hrid⟩ := List.any_eq_true.1 h
    cases hfind : findId c v.id with
    | none =>
      exact absurd (show r.id = v.id by simpa using hrid)
        ((findId_eq_none_iff c v.id).1 hfind r hr)
    | some old => rfl
  · have hn : findId c v.id = none := by
      rw [findId_eq_none_iff]
      intro r hr hrid
      exact h (List.any_eq_true.2 ⟨r, hr, by simpa using hrid⟩)
    rw [upsertListing, if_neg h]
    simp only [hn]
    have hn2 : List.find? (fun r => r.id == v.id) c = none := hn
    rw [findId, List.find?_append]
    simp [hn2, freshListingRow]

/-- The listing upsert leaves lookups at every other id unchanged. -/
theorem findId_upsertListing_other (c : Cache) (v : ListingValues) (now i : Nat)
    (hne : i ≠ v.id) : findId (upsertListing c v now) i = findId c i := by
  by_cases h : c.any (fun r => r.id = v.id)
  · rw [upsertListing, if_pos h]
    exact findId_mapUpd_other c v.id i (fun r => refreshListingRow r v now) (fun r hr => hr) hne
  · rw [upsertListing, if_neg h, findId, List.find?_append]
    have : ((freshListingRow v now).id == i) = false := by
      simp [freshListingRow]
      exact fun hc => hne hc.symm
    simp [List.find?, this, findId]

/-- C7: upserting twice with the same id (the full nine-column upsert of the
sync engine) leaves exactly one row with that id; the row carries the field
values of the second call and its lastUpdated is the second timestamp, hence
at least the first timestamp under clock monotonicity.  A repeated upsert
never creates a duplicate row. -/
theorem upsert_idempotent (cache : Cache) (v1 v2 : UpsertValues) (t1 t2 : Nat)
    (hnd : (cacheIds cache).Nodup) (hid : v1.id = v2.id) (ht : t1 ≤ t2) :
    countId (upsertFull (upsertFull cache v1 t1) v2 t2) v2.id = 1 ∧
    findId (upsertFull (upsertFull cache v1 t1) v2 t2) v2.id
      = some (fullRowOfValues v2 t2) ∧
    t1 ≤ (fullRowOfValues v2 t2).lastUpdated := by
  refine ⟨?_, findId_upsertFull_self _ _ _, by simpa [fullRowOfValues] using ht⟩
  rw [countId_eq_count]
  have hnd2 : (cacheIds (upsertFull cache v1 t1)).Nodup := nodup_upsertFull cache v1 t1 hnd
  have hmem : v2.id ∈ cacheIds (upsertFull (upsertFull cache v1 t1) v2 t2) := by
    rw [cacheIds_upsertFull]
    by_cases h : (upsertFull cache v1 t1).any (fun r => r.id = v2.id)
    · rw [if_pos h]
      exact (any_id_iff _ _).1 h
    · rw [if_neg h]
      simp
  exact List.count_eq_one_of_mem (nodup_upsertFull _ v2 t2 hnd2) hmem

/-- Witness for C7: upserting id 4 twice into a cache holding one unrelated
row leaves exactly one row with id 4, carrying the second name b.com and
lastUpdated 6, which is at least the first timestamp 1. -/
theorem upsert_idempotent_witness :
    (cacheIds [demoRow]).Nodup ∧ wValuesA.id = wValuesB.id ∧ (1 : Nat) ≤ 6 ∧
    countId (upsertFull (upsertFull [demoRow] wValuesA 1) wValuesB 6) wValuesB.id = 1 ∧
    findId (upsertFull (upsertFull [demoRow] wValuesA 1) wValuesB 6) wValuesB.id
      = some (fullRowOfValues wValuesB 6) :=
  ⟨by decide, by decide, by decide,
   (upsert_idempotent [demoRow] wValuesA wValuesB 1 6 (by decide) (by decide) (by decide)).1,
   (upsert_idempotent [demoRow] wValuesA wValuesB 1 6 (by decide) (by decide) (by decide)).2.1⟩

/-! Lemmas about the batch loop: its cache effect is the plain left fold over
all items, and its event trace is the per-batch call blocks joined by single
inter-batch sleeps. -/

/-- Sequential processing is a left fold on the cache, with the per-item
event blocks concatenated, whenever the per-item events do not depend on the
cache state. -/
theorem processSeq_spec {α : Type} (step : Cache → α → Cache × List SyncEvent)
    (evf : α → List SyncEvent) (hev : ∀ c x, (step c x).2 = evf x) :
    ∀ (xs : List α) (c : Cache),
      processSeq step xs c
        = (xs.foldl (fun c x => (step c x).1) c, (xs.map evf).flatten) := by
  intro xs
  induction xs with
  | nil => intro c; rfl
  | cons x t ih =>
    intro c
    simp [processSeq, ih, hev]

/-- Chunking the empty work list yields no batch. -/
theorem batchChunks_nil {α : Type} (bsz : Nat) (hb : 0 < bsz) :
    batchChunks bsz hb ([] : List α) = [] := by
  rw [batchChunks]

/-- One-step unfolding of the chunking on a nonempty work list. -/
theorem batchChunks_cons {α : Type} (bsz : Nat) (hb : 0 < bsz) (x : α) (xs : List α) :
    batchChunks bsz hb (x :: xs)
      = (x :: xs).take bsz :: batchChunks bsz hb ((x :: xs).drop bsz) := by
  rw [batchChunks]

/-- The batches concatenate back to the whole work list: every item is
processed, each exactly once. -/
theorem batchChunks_flatten {α : Type} (bsz : Nat) (hb : 0 < bsz) (xs : List α) :
    (batchChunks bsz hb xs).flatten = xs := by
  induction xs using batchChunks.induct bsz hb with
  | case1 => rw [batchChunks_nil]; rfl
  | case2 x xs ih =>
    rw [batchChunks_cons, List.flatten_cons, ih, List.take_append_drop]

/-- Every batch is nonempty and no longer than the batch size. -/
theorem batchChunks_sizes {α : Type} (bsz : Nat) (hb : 0 < bsz) (xs : List α) :
    ∀ ch ∈ batchChunks bsz hb xs, ch ≠ [] ∧ ch.length ≤ bsz := by
  induction xs using batchChunks.induct bsz hb with
  | case1 => intro ch h; rw [batchChunks_nil] at h; cases h
  | case2 x xs ih =>
    intro ch h
    rw [batchChunks_cons] at h
    rcases List.mem_cons.1 h with h | h
    · subst h
      refine ⟨?_, by simp [List.length_take]⟩
      cases bsz with
      | zero => exact absurd hb (by omega)
      | succ b => simp [List.take_succ_cons]
    · exact ih ch h

/-- A nonempty work list yields at least one batch. -/
theorem batchChunks_ne_nil {α : Type} (bsz : Nat) (hb : 0 < bsz) (x : α) (xs : List α) :
    batchChunks bsz hb (x :: xs) ≠ [] := by
  rw [batchChunks_cons]
  exact List.cons_ne_nil _ _

/-- Every batch except the last has exactly the fixed batch size. -/
theorem batchChunks_fixed_size {α : Type} (bsz : Nat) (hb : 0 < bsz) (xs : List α) :
    ∀ ch ∈ (batchChunks bsz hb xs).dropLast, ch.length = bsz := by
  induction xs using batchChunks.induct bsz hb with
  | case1 => intro ch h; rw [batchChunks_nil] at h; cases h
  | case2 x xs ih =>
    intro ch h
    rw [batchChunks_cons] at h
    cases hrest : (x :: xs).drop bsz with
    | nil =>
      rw [hrest, batchChunks_nil] at h
      cases h
    | cons y t =>
      rw [hrest] at h ih
      rw [List.dropLast_cons_of_ne_nil (batchChunks_ne_nil bsz hb y t)] at h
      rcases List.mem_cons.1 h with h | h
      · subst h
        have hlen : bsz < (x :: xs).length := by
          have hld := List.length_drop bsz (x :: xs)
          rw [hrest] at hld
          simp only [List.length_cons] at hld ⊢
          omega
        simp only [List.length_take]
        omega
      · exact ih ch h

/-- Append splits the sleep counter. -/
theorem sleepCount_append (a b : List SyncEvent) :
    sleepCount (a ++ b) = sleepCount a + sleepCount b := by
  simp [sleepCount, List.filter_append]

/-- A block of singleton call events contains no sleep. -/
theorem flatten_singletons {α β : Type} (f : α → β) (l : List α) :
    (l.map fun x => [f x]).flatten = l.map f := by
  induction l with
  | nil => rfl
  | cons a t ih => simp [ih]

/-- A list of upstream calls contains no pacing sleep. -/
theorem sleepCount_calls {α : Type} (f : α → UpstreamCall) (ch : List α) :
    sleepCount (ch.map fun x => SyncEvent.call (f x)) = 0 := by
  induction ch with
  | nil => rfl
  | cons a t ih => simp [sleepCount, List.filter_cons, isSleep]

/-- Joining a single block inserts no sleep. -/
theorem joinSep_singleton (d : Nat) (b : List SyncEvent) : joinSep d [b] = b := by
  simp [joinSep, List.intersperse]

/-- Joining two or more blocks inserts exactly one sleep between the first
block and the rest. -/
theorem joinSep_cons (d : Nat) (b b2 : List SyncEvent) (rest : List (List SyncEvent)) :
    joinSep d (b :: b2 :: rest) = b ++ SyncEvent.sleep d :: joinSep d (b2 :: rest) := by
  simp [joinSep, List.intersperse]

/-- The joined trace holds one sleep fewer than it has blocks, when the
blocks themselves are sleep-free. -/
theorem sleepCount_joinSep (d : Nat) (blocks : List (List SyncEvent))
    (hfree : ∀ b ∈ blocks, sleepCount b = 0) :
    sleepCount (joinSep d blocks) = blocks.length - 1 := by
  induction blocks with
  | nil => rfl
  | cons b rest ih =>
    cases rest with
    | nil => simpa [joinSep_singleton] using hfree b (by simp)
    | cons b2 t =>
      rw [joinSep_cons, sleepCount_append]
      have h1 : sleepCount (SyncEvent.sleep d :: joinSep d (b2 :: t))
          = 1 + sleepCount (joinSep d (b2 :: t)) := by
        simp [sleepCount, List.filter_cons, isSleep]
        omega
      rw [h1, ih fun x hx => hfree x (by simp [hx]), hfree b (by simp)]
      simp
      omega

/-- Arithmetic step of the batch-count formula. -/
theorem ceil_div_step (n bsz : Nat) (hb : 0 < bsz) (hn : 0 < n) :
    (n - bsz + bsz - 1) / bsz + 1 = (n + bsz - 1) / bsz := by
  rcases Nat.lt_or_ge n bsz with h | h
  · have h1 : n - bsz + bsz - 1 = bsz - 1 := by omega
    have h2 : n + bsz - 1 = (n - 1) + bsz := by omega
    rw [h1, h2, Nat.add_div_right _ hb, Nat.div_eq_of_lt (by omega),
      Nat.div_eq_of_lt (by omega)]
  · have h1 : n - bsz + bsz - 1 = n - 1 := by omega
    have h2 : n + bsz - 1 = (n - 1) + bsz := by omega
    rw [h1, h2, Nat.add_div_right _ hb]

/-- The number of batches is the ceiling of the work-list length divided by
the batch size. -/
theorem batchChunks_length {α : Type} (bsz : Nat) (hb : 0 < bsz) (xs : List α) :
    (batchChunks bsz hb xs).length = (xs.length + bsz - 1) / bsz := by
  induction xs using batchChunks.induct bsz hb with
  | case1 =>
    rw [batchChunks_nil]
    simp [Nat.div_eq_of_lt (show bsz - 1 < bsz by omega)]
  | case2 x xs ih =>
    rw [batchChunks_cons, List.length_cons, ih, List.length_drop]
    exact ceil_div_step (x :: xs).length bsz hb (by simp)

/-- The batch loop in full: its cache result is the left fold of the step
over the work list, and its event trace is the per-batch blocks joined by
single inter-batch sleeps, whenever the per-item events do not depend on the
cache state. -/
theorem runBatches_spec {α : Type} (step : Cache → α → Cache × List SyncEvent)
    (evf : α → List SyncEvent) (hev : ∀ c x, (step c x).2 = evf x)
    (bsz : Nat) (hb : 0 < bsz) (d : Nat) :
    ∀ (xs : List α) (c : Cache),
      runBatches step bsz hb d xs c
        = (xs.foldl (fun c x => (step c x).1) c,
           joinSep d ((batchChunks bsz hb xs).map fun ch => (ch.map evf).flatten)) := by
  intro xs c
  induction xs, c using runBatches.induct step bsz hb d with
  | case1 c =>
    rw [runBatches, batchChunks_nil]
    simp [joinSep]
  | case2 x xs c rest hrest =>
    have hdrop : (x :: xs).drop bsz = [] := by
      simp only [rest, List.isEmpty_iff] at hrest
      exact hrest
    have hbatch : (x :: xs).take bsz = x :: xs := by
      conv_rhs => rw [← List.take_append_drop bsz (x :: xs)]
      rw [hdrop, List.append_nil]
    rw [runBatches]
    simp only [hdrop, List.isEmpty_nil, if_true]
    rw [processSeq_spec step evf hev, batchChunks_cons, hdrop, batchChunks_nil]
    rw [List.map_cons, List.map_nil, joinSep_singleton, hbatch]
  | case3 x xs c batch rest p hrest ih =>
    rw [runBatches]
    have hne : ((x :: xs).drop bsz).isEmpty = false := by
      simp only [rest, Bool.not_eq_true] at hrest
      exact hrest
    simp only [hne, Bool.false_eq_true, if_false]
    simp only [batch, rest, p] at ih
    rw [processSeq_spec step evf hev] at ih
    rw [processSeq_spec step evf hev, ih]
    simp only [Prod.mk.injEq]
    constructor
    · conv_rhs => rw [← List.take_append_drop bsz (x :: xs), List.foldl_append]
    · cases hdrop : (x :: xs).drop bsz with
      | nil => rw [hdrop] at hne; simp at hne
      | cons y t =>
        conv_rhs => rw [batchChunks_cons]
        rw [hdrop]
        have hchne : batchChunks bsz hb (y :: t) ≠ [] := batchChunks_ne_nil bsz hb y t
        cases hch : batchChunks bsz hb (y :: t) with
        | nil => exact absurd hch hchne
        | cons ch cht =>
          simp only [List.map_cons]
          rw [joinSep_cons]

/-- C5: within one status-only sync run the cached records are read in
ascending lastUpdated order (a stable sort of the cache, hence a permutation
of it), processed in batches of 5 appearing strictly sequentially in the
trace, with exactly one 3000 ms sleep between consecutive batches and none
after the last: in total ceil(n over 5) minus 1 sleeps, truncated at zero.
The combined listing sync processes the listing items in batches of 10 with
2000 ms inter-batch sleeps, ceil(n over 10) minus 1 of them.  The batch
partition facts are batchChunks_flatten, batchChunks_sizes and
batchChunks_fixed_size. -/
theorem statusSync_batching (u : Upstream) (w : WriteOracle) (cache : Cache)
    (now : Nat) (items : List DomainItem) (hs : Nat) :
    List.Sorted leUpdated (sortByUpdated cache) ∧
    (sortByUpdated cache).Perm cache ∧
    (performStatusSync u w cache now).2
      = joinSep 3000 ((batchChunks 5 (by decide) (sortByUpdated cache)).map
          fun ch => ch.map fun r => SyncEvent.call (.status r.id)) ∧
    sleepCount (performStatusSync u w cache now).2 = (cache.length + 4) / 5 - 1 ∧
    (performBackgroundSync ⟨fun _ => .success (some items) hs, u.statusOf⟩ w cache now).2
      = SyncEvent.call (.domains none)
        :: joinSep 2000 ((batchChunks 10 (by decide) items).map
             fun ch => ch.map fun d => SyncEvent.call (.status d.id)) ∧
    sleepCount
        (performBackgroundSync ⟨fun _ => .success (some items) hs, u.statusOf⟩ w cache now).2
      = (items.length + 9) / 10 - 1 := by
  have hspec1 := runBatches_spec (statusStep u w now)
      (fun r => [SyncEvent.call (.status r.id)]) (fun _ _ => rfl) 5 (by decide) 3000
      (sortByUpdated cache) cache
  have hblocks1 : ((batchChunks 5 (by decide) (sortByUpdated cache)).map
        fun ch => (ch.map fun r => [SyncEvent.call (.status r.id)]).flatten)
      = ((batchChunks 5 (by decide) (sortByUpdated cache)).map
          fun ch => ch.map fun r => SyncEvent.call (.status r.id)) :=
    List.map_congr_left fun ch _ => flatten_singletons _ ch
  have htrace1 : (performStatusSync u w cache now).2
      = joinSep 3000 ((batchChunks 5 (by decide) (sortByUpdated cache)).map
          fun ch => ch.map fun r => SyncEvent.call (.status r.id)) := by
    rw [performStatusSync, hspec1, hblocks1]
  have hcount1 : sleepCount (performStatusSync u w cache now).2
      = (cache.length + 4) / 5 - 1 := by
    rw [htrace1, sleepCount_joinSep]
    · rw [List.length_map, batchChunks_length]
      have hlen : (sortByUpdated cache).length = cache.length :=
        (List.perm_insertionSort leUpdated cache).length_eq
      rw [hlen, show cache.length + 5 - 1 = cache.length + 4 by omega]
    · intro b hb2
      obtain ⟨ch, hch, rfl⟩ := List.mem_map.1 hb2
      exact sleepCount_calls _ ch
  have hspec2 := runBatches_spec (batchStep ⟨fun _ => .success (some items) hs, u.statusOf⟩ w now)
      (fun d => [SyncEvent.call (.status d.id)]) (fun _ _ => rfl) 10 (by decide) 2000
      items cache
  have hblocks2 : ((batchChunks 10 (by decide) items).map
        fun ch => (ch.map fun d => [SyncEvent.call (.status d.id)]).flatten)
      = ((batchChunks 10 (by decide) items).map
          fun ch => ch.map fun d => SyncEvent.call (.status d.id)) :=
    List.map_congr_left fun ch _ => flatten_singletons _ ch
  have htrace2 : (performBackgroundSync ⟨fun _ => .success (some items) hs, u.statusOf⟩ w cache now).2
      = SyncEvent.call (.domains none)
        :: joinSep 2000 ((batchChunks 10 (by decide) items).map
             fun ch => ch.map fun d => SyncEvent.call (.status d.id)) := by
    show (SyncEvent.call (.domains none)
        :: (runBatches (batchStep ⟨fun _ => .success (some items) hs, u.statusOf⟩ w now)
             10 (by decide) 2000 ((some items).getD []) cache).2) = _
    rw [show (some items).getD ([] : List DomainItem) = items from rfl, hspec2, hblocks2]
  have hcount2 : sleepCount
      (performBackgroundSync ⟨fun _ => .success (some items) hs, u.statusOf⟩ w cache now).2
      = (items.length + 9) / 10 - 1 := by
    rw [htrace2]
    have hstep : sleepCount (SyncEvent.call (.domains none)
        :: joinSep 2000 ((batchChunks 10 (by decide) items).map
             fun ch => ch.map fun d => SyncEvent.call (.status d.id)))
        = sleepCount (joinSep 2000 ((batchChunks 10 (by decide) items).map
             fun ch => ch.map fun d => SyncEvent.call (.status d.id))) := by
      simp [sleepCount, List.filter_cons, isSleep]
    rw [hstep, sleepCount_joinSep]
    · rw [List.length_map, batchChunks_length,
        show items.length + 10 - 1 = items.length + 9 by omega]
    · intro b hb2
      obtain ⟨ch, hch, rfl⟩ := List.mem_map.1 hb2
      exact sleepCount_calls _ ch
  exact ⟨List.sorted_insertionSort leUpdated cache, List.perm_insertionSort leUpdated cache,
    htrace1, hcount1, htrace2, hcount2⟩

/-- Under primary-key uniqueness, looking up the id of a stored row returns
that row. -/
theorem findId_of_mem_nodup (c : Cache) (r : DomainRow)
    (hnd : (cacheIds c).Nodup) (hr : r ∈ c) : findId c r.id = some r := by
  induction c with
  | nil => cases hr
  | cons a t ih =>
    simp only [cacheIds, List.map_cons, List.nodup_cons] at hnd
    rcases List.mem_cons.1 hr with heq | hmem
    · subst heq
      rw [findId, List.find?_cons_of_pos _ (by simp)]
    · have hane : a.id ≠ r.id := fun hc =>
        hnd.1 (hc ▸ List.mem_map.2 ⟨r, hmem, rfl⟩)
      rw [findId, List.find?_cons_of_neg _ (by simp [hane])]
      exact ih (by simpa [cacheIds] using hnd.2) hmem

/-- The cache after a status-only sync run is the left fold of the per-item
step over the rows in lastUpdated order. -/
theorem statusSync_cache_foldl (u : Upstream) (w : WriteOracle) (cache : Cache) (now : Nat) :
    (performStatusSync u w cache now).1
      = (sortByUpdated cache).foldl (fun c r => (statusStep u w now c r).1) cache := by
  rw [performStatusSync,
    runBatches_spec (statusStep u w now) (fun r => [SyncEvent.call (.status r.id)])
      (fun _ _ => rfl) 5 (by decide) 3000]

/-- Items whose ids do not occur in the remaining work leave a lookup
untouched across the status-sync fold. -/
theorem foldl_statusStep_frame (u : Upstream) (w : WriteOracle) (now : Nat)
    (todo : List DomainRow) (st : Cache) (i : Nat) (h : ∀ x ∈ todo, x.id ≠ i) :
    findId (todo.foldl (fun c x => (statusStep u w now c x).1) st) i = findId st i := by
  induction todo generalizing st with
  | nil => rfl
  | cons x t ih =>
    rw [List.foldl_cons, ih _ fun y hy => h y (List.mem_cons_of_mem x hy)]
    cases hw : w x.id with
    | some e => simp [statusStep, hw]
    | none =>
      simp only [statusStep, hw]
      exact findId_mapUpd_other st x.id i
        (fun y => { y with status := statusFromResult (u.statusOf x.id), lastUpdated := now })
        (fun y hy => hy) (fun hc => h x (List.mem_cons_self x t) hc.symm)

/-- Along the status-sync fold, a row whose status fetch and cache write both
behave as given ends with exactly that status and the run timestamp, whatever
the upstream or the storage does for every other row. -/
theorem foldl_statusStep_processed (u : Upstream) (w : WriteOracle) (now : Nat)
    (todo : List DomainRow) (st : Cache) (r : DomainRow)
    (hnd : (todo.map (·.id)).Nodup) (hr : r ∈ todo)
    (hw : w r.id = none) (hfind : findId st r.id = some r) :
    findId (todo.foldl (fun c x => (statusStep u w now c x).1) st) r.id
      = some { r with status := statusFromResult (u.statusOf r.id), lastUpdated := now } := by
  induction todo generalizing st with
  | nil => cases hr
  | cons x t ih =>
    simp only [List.map_cons, List.nodup_cons] at hnd
    rw [List.foldl_cons]
    rcases List.mem_cons.1 hr with heq | hmem
    · subst heq
      have hstep : findId ((statusStep u w now st r).1) r.id
          = some { r with status := statusFromResult (u.statusOf r.id), lastUpdated := now } := by
        simp only [statusStep, hw]
        have hm := findId_mapUpd_self st r.id
            (fun y => { y with status := statusFromResult (u.statusOf r.id), lastUpdated := now })
            (fun y hy => hy)
        rw [hfind] at hm
        exact hm
      rw [foldl_statusStep_frame u w now t _ r.id
        fun y hy hc => hnd.1 (hc ▸ List.mem_map.2 ⟨y, hy, rfl⟩)]
      exact hstep
    · have hxne : x.id ≠ r.id := fun hc =>
        hnd.1 (hc ▸ List.mem_map.2 ⟨r, hmem, rfl⟩)
      have hpres : findId ((statusStep u w now st x).1) r.id = some r := by
        cases hwx : w x.id with
        | some e => simpa [statusStep, hwx] using hfind
        | none =>
          simp only [statusStep, hwx]
          have hm := findId_mapUpd_other st x.id r.id
              (fun y => { y with status := statusFromResult (u.statusOf x.id), lastUpdated := now })
              (fun y hy => hy) (fun hc => hxne hc.symm)
          exact hm.trans hfind
      exact ih _ hnd.2 hmem hpres

/-- An event of any block occurs in the joined trace. -/
theorem mem_joinSep (d : Nat) (blocks : List (List SyncEvent)) (b : List SyncEvent)
    (e : SyncEvent) (hb : b ∈ blocks) (he : e ∈ b) : e ∈ joinSep d blocks := by
  induction blocks with
  | nil => cases hb
  | cons b0 rest ih =>
    cases rest with
    | nil =>
      rcases List.mem_cons.1 hb with heq | hmem
      · subst heq
        simpa [joinSep_singleton] using he
      · cases hmem
    | cons b1 t =>
      rw [joinSep_cons]
      rcases List.mem_cons.1 hb with heq | hmem
      · subst heq
        exact List.mem_append.2 (Or.inl he)
      · exact List.mem_append.2 (Or.inr (List.mem_cons_of_mem _ (ih hmem)))

/-- Every work item contributes its upstream call to the batch-loop trace:
the loop never stops early. -/
theorem runBatches_mem_calls {α : Type} (step : Cache → α → Cache × List SyncEvent)
    (keyf : α → Nat) (hev : ∀ c x, (step c x).2 = [SyncEvent.call (.status (keyf x))])
    (bsz : Nat) (hb : 0 < bsz) (d : Nat) (xs : List α) (c : Cache) (x : α) (hx : x ∈ xs) :
    SyncEvent.call (.status (keyf x)) ∈ (runBatches step bsz hb d xs c).2 := by
  rw [runBatches_spec step _ hev bsz hb d]
  have hxflat : x ∈ (batchChunks bsz hb xs).flatten := by
    rw [batchChunks_flatten]
    exact hx
  obtain ⟨ch, hch, hxc⟩ := List.mem_flatten.1 hxflat
  refine mem_joinSep d _ ((ch.map fun y => [SyncEvent.call (.status (keyf y))]).flatten)
    _ (List.mem_map.2 ⟨ch, hch, rfl⟩) ?_
  rw [flatten_singletons]
  exact List.mem_map.2 ⟨x, hxc, rfl⟩

/-- C6: within one status-sync run, a row whose status fetch succeeds and
whose cache write goes through ends with exactly the fetched status and the
run timestamp, no matter how the upstream or the storage fails for every
other row; and the run reaches every cached row, issuing its status call,
regardless of such failures.  The run itself is a total function: every
failure mode is absorbed into these outcomes and nothing escapes to the
caller. -/
theorem statusSync_failure_isolation (u : Upstream) (w : WriteOracle)
    (cache : Cache) (now : Nat) (r : DomainRow) (s : DomainStatus) (code : Nat)
    (hnd : (cacheIds cache).Nodup) (hr : r ∈ cache)
    (hfetch : u.statusOf r.id = .success (some s) code) (hw : w r.id = none) :
    findId (performStatusSync u w cache now).1 r.id
      = some { r with status := s, lastUpdated := now } ∧
    ∀ x ∈ cache, SyncEvent.call (.status x.id) ∈ (performStatusSync u w cache now).2 := by
  constructor
  · rw [statusSync_cache_foldl]
    have hnd2 : ((sortByUpdated cache).map (·.id)).Nodup := by
      have hperm := (List.perm_insertionSort leUpdated cache).map (·.id)
      exact hperm.nodup_iff.2 hnd
    have hrs : r ∈ sortByUpdated cache :=
      (List.perm_insertionSort leUpdated cache).mem_iff.2 hr
    have hfind : findId cache r.id = some r := findId_of_mem_nodup cache r hnd hr
    have hp := foldl_statusStep_processed u w now (sortByUpdated cache) cache r hnd2 hrs hw hfind
    rw [hfetch] at hp
    exact hp
  · intro x hx
    have hxs : x ∈ sortByUpdated cache :=
      (List.perm_insertionSort leUpdated cache).mem_iff.2 hx
    exact runBatches_mem_calls (statusStep u w now) (·.id) (fun _ _ => rfl)
      5 (by decide) 3000 (sortByUpdated cache) cache x hxs

/-- Witness for C6: with ids 1 to 5 cached and the fetch for id 3 failing,
id 4 still ends with the fetched suspended status and the run timestamp. -/
theorem statusSync_failure_isolation_witness :
    (cacheIds wRowsFive).Nodup ∧ wRowFour ∈ wRowsFive ∧
    wFailThree.statusOf 4 = .success (some .suspended) 200 ∧ wAll 4 = none ∧
    findId (performStatusSync wFailThree wAll wRowsFive 7).1 4
      = some { wRowFour with status := .suspended, lastUpdated := 7 } :=
  ⟨by decide, by decide, by decide, rfl,
   (statusSync_failure_isolation wFailThree wAll wRowsFive 7 wRowFour .suspended 200
      (by decide) (by decide) (by decide) rfl).1⟩

/-- The cache after a combined listing sync with a successful listing is the
left fold of the batch step over the listing items. -/
theorem backgroundSync_cache_foldl (u : Upstream) (w : WriteOracle) (cache : Cache)
    (now : Nat) (items : List DomainItem) (hs : Nat) :
    (performBackgroundSync ⟨fun _ => .success (some items) hs, u.statusOf⟩ w cache now).1
      = items.foldl
          (fun c d => (batchStep ⟨fun _ => .success (some items) hs, u.statusOf⟩ w now c d).1)
          cache := by
  show (runBatches (batchStep ⟨fun _ => .success (some items) hs, u.statusOf⟩ w now)
      10 (by decide) 2000 ((some items).getD []) cache).1 = _
  rw [show (some items).getD ([] : List DomainItem) = items from rfl,
    runBatches_spec _ (fun d => [SyncEvent.call (.status d.id)]) (fun _ _ => rfl)
      10 (by decide) 2000]

/-- Items whose ids do not occur in the remaining work leave a lookup
untouched across the combined-sync fold. -/
theorem foldl_batchStep_frame (u : Upstream) (w : WriteOracle) (now : Nat)
    (todo : List DomainItem) (st : Cache) (i : Nat) (h : ∀ x ∈ todo, x.id ≠ i) :
    findId (todo.foldl (fun c x => (batchStep u w now c x).1) st) i = findId st i := by
  induction todo generalizing st with
  | nil => rfl
  | cons x t ih =>
    rw [List.foldl_cons, ih _ fun y hy => h y (List.mem_cons_of_mem x hy)]
    cases hw : w x.id with
    | some e => simp [batchStep, hw]
    | none =>
      simp only [batchStep, hw]
      exact findId_upsertFull_other st _ now i (Ne.symm (h x (List.mem_cons_self x t)))

/-- Along the combined-sync fold, an item whose cache write goes through ends
as exactly the row built from its listing fields, the status computed from
its own fetch, and a null syncError, whatever happens for other items. -/
theorem foldl_batchStep_processed (u : Upstream) (w : WriteOracle) (now : Nat)
    (todo : List DomainItem) (st : Cache) (d : DomainItem)
    (hnd : (todo.map (·.id)).Nodup) (hd : d ∈ todo) (hw : w d.id = none) :
    findId (todo.foldl (fun c x => (batchStep u w now c x).1) st) d.id
      = some (fullRowOfValues
          (batchValuesOfItem d (statusFromResult (u.statusOf d.id)) none now) now) := by
  induction todo generalizing st with
  | nil => cases hd
  | cons x t ih =>
    simp only [List.map_cons, List.nodup_cons] at hnd
    rw [List.foldl_cons]
    rcases List.mem_cons.1 hd with heq | hmem
    · subst heq
      rw [foldl_batchStep_frame u w now t _ d.id
        fun y hy hc => hnd.1 (hc ▸ List.mem_map.2 ⟨y, hy, rfl⟩)]
      simp only [batchStep, hw]
      exact findId_upsertFull_self st _ now
    · exact ih _ hnd.2 hmem

/-- C2 amended: on a per-item status-fetch failure the run writes status
unknown for that record, replacing any previous status, and bumps
lastUpdated; the fetch error message is not recorded.  The status-only sync
leaves the record syncError exactly as it was (its UPDATE statement does not
mention sync_error), and the combined listing sync overwrites syncError with
null (its inner catch is unreachable, executeRequest never throws).
Failures are only logged to the console. -/
theorem statusSync_failure_amended (u : Upstream) (w : WriteOracle) (cache : Cache)
    (now : Nat) (r : DomainRow) (e : String) (code : Nat)
    (items : List DomainItem) (hs : Nat) (d : DomainItem) (e2 : String) (code2 : Nat)
    (hnd : (cacheIds cache).Nodup) (hr : r ∈ cache)
    (hfail : u.statusOf r.id = .failure e code) (hw : w r.id = none)
    (hnd2 : (items.map (·.id)).Nodup) (hd : d ∈ items)
    (hfail2 : u.statusOf d.id = .failure e2 code2) (hw2 : w d.id = none) :
    findId (performStatusSync u w cache now).1 r.id
      = some { r with status := DomainStatus.unknown, lastUpdated := now } ∧
    ({ r with status := DomainStatus.unknown, lastUpdated := now } : DomainRow).syncError
      = r.syncError ∧
    findId (performBackgroundSync ⟨fun _ => .success (some items) hs, u.statusOf⟩
        w cache now).1 d.id
      = some (fullRowOfValues (batchValuesOfItem d DomainStatus.unknown none now) now) ∧
    (fullRowOfValues (batchValuesOfItem d DomainStatus.unknown none now) now).syncError
      = none := by
  refine ⟨?_, rfl, ?_, rfl⟩
  · rw [statusSync_cache_foldl]
    have hperm := (List.perm_insertionSort leUpdated cache).map (·.id)
    have hnd2s : ((sortByUpdated cache).map (·.id)).Nodup := hperm.nodup_iff.2 hnd
    have hrs : r ∈ sortByUpdated cache :=
      (List.perm_insertionSort leUpdated cache).mem_iff.2 hr
    have hfind : findId cache r.id = some r := findId_of_mem_nodup cache r hnd hr
    have hp := foldl_statusStep_processed u w now (sortByUpdated cache) cache r hnd2s hrs hw hfind
    rw [hfail] at hp
    exact hp
  · rw [backgroundSync_cache_foldl]
    have hp := foldl_batchStep_processed ⟨fun _ => .success (some items) hs, u.statusOf⟩
      w now items cache d hnd2 hd hw2
    rw [show (⟨fun _ => .success (some items) hs, u.statusOf⟩ : Upstream).statusOf
        = u.statusOf from rfl, hfail2] at hp
    exact hp

/-- C2 counterexample: one cached row, id 1, previously enriched to active,
with no recorded error; the status fetch for id 1 fails with message boom.
After the run the row is status unknown with lastUpdated bumped, and its
syncError is still none: the error message boom was not recorded anywhere,
refuting the claim that the error message lands in syncError. -/
theorem statusSync_error_not_recorded_cex :
    (performStatusSync cexFailUpstream wAll [demoRow] 7).1
      = [{ demoRow with status := DomainStatus.unknown, lastUpdated := 7 }] ∧
    (performStatusSync cexFailUpstream wAll [demoRow] 7).1.map DomainRow.syncError = [none] ∧
    (none : Option String) ≠ some "boom" := by
  have h1 : (performStatusSync cexFailUpstream wAll [demoRow] 7).1
      = [{ demoRow with status := DomainStatus.unknown, lastUpdated := 7 }] := by
    simp [performStatusSync, runBatches, processSeq, statusStep, statusFromResult,
      sortByUpdated, List.insertionSort, cexFailUpstream, wAll,
      updateDomainStatusInCache, demoRow]
  refine ⟨h1, by rw [h1]; rfl, by decide⟩

/-- Witness for the amended C2 at concrete inputs: a failing fetch leaves the
cached row unknown with its syncError untouched, and the combined sync
writes the item with status unknown and null syncError. -/
theorem statusSync_failure_amended_witness :
    (cacheIds [demoRow]).Nodup ∧ demoRow ∈ ([demoRow] : Cache) ∧
    cexFailUpstream.statusOf demoRow.id = .failure "boom" 500 ∧
    (([wItemNine] : List DomainItem).map (·.id)).Nodup ∧
    findId (performStatusSync cexFailUpstream wAll [demoRow] 7).1 demoRow.id
      = some { demoRow with status := DomainStatus.unknown, lastUpdated := 7 } ∧
    findId (performBackgroundSync ⟨fun _ => .success (some [wItemNine]) 200,
        cexFailUpstream.statusOf⟩ wAll [demoRow] 7).1 wItemNine.id
      = some (fullRowOfValues (batchValuesOfItem wItemNine DomainStatus.unknown none 7) 7) :=
  ⟨by decide, by decide, rfl, by decide,
   (statusSync_failure_amended cexFailUpstream wAll [demoRow] 7 demoRow "boom" 500
      [wItemNine] 200 wItemNine "boom" 500 (by decide) (by decide) rfl rfl (by decide)
      (by decide) rfl rfl).1,
   (statusSync_failure_amended cexFailUpstream wAll [demoRow] 7 demoRow "boom" 500
      [wItemNine] 200 wItemNine "boom" 500 (by decide) (by decide) rfl rfl (by decide)
      (by decide) rfl rfl).2.2.1⟩

/-- When every write succeeds, the storing loop completes and applies the
listing upsert to each item in order. -/
theorem storeLoop_all_ok (w : WriteOracle) (now : Nat) (ds : List DomainItem) :
    ∀ (i : Nat) (c : Cache), (∀ j, w j = none) →
      storeLoop w now ds i c
        = (none, ds.foldl (fun c d => upsertListing c (listingValuesOfItem d) now) c) := by
  induction ds with
  | nil => intro i c h; rfl
  | cons d t ih =>
    intro i c h
    rw [storeLoop, h i]
    exact ih (i + 1) _ h

/-- If the storing loop reports no error, its result is the fold of the
listing upsert over the items. -/
theorem storeLoop_none_inv (w : WriteOracle) (now : Nat) (ds : List DomainItem) :
    ∀ (i : Nat) (c c1 : Cache), storeLoop w now ds i c = (none, c1) →
      c1 = ds.foldl (fun c d => upsertListing c (listingValuesOfItem d) now) c := by
  induction ds with
  | nil =>
    intro i c c1 h
    cases h
    rfl
  | cons d t ih =>
    intro i c c1 h
    rw [storeLoop] at h
    cases hw : w i with
    | some e => rw [hw] at h; cases h
    | none =>
      rw [hw] at h
      exact ih (i + 1) _ c1 h

/-- Items whose ids do not occur in the remaining listing leave a lookup
untouched across the storing fold. -/
theorem foldl_upsertListing_frame (now : Nat) (todo : List DomainItem) (st : Cache)
    (i : Nat) (h : ∀ x ∈ todo, x.id ≠ i) :
    findId (todo.foldl (fun c x => upsertListing c (listingValuesOfItem x) now) st) i
      = findId st i := by
  induction todo generalizing st with
  | nil => rfl
  | cons x t ih =>
    rw [List.foldl_cons, ih _ fun y hy => h y (List.mem_cons_of_mem x hy)]
    exact findId_upsertListing_other st _ now i (Ne.symm (h x (List.mem_cons_self x t)))

/-- Along the storing fold, each listing item ends as the refresh of the row
its id already had, or as a fresh unknown-status row when the id was new. -/
theorem foldl_upsertListing_processed (now : Nat) (todo : List DomainItem) (st : Cache)
    (d : DomainItem) (hnd : (todo.map (·.id)).Nodup) (hd : d ∈ todo) :
    findId (todo.foldl (fun c x => upsertListing c (listingValuesOfItem x) now) st) d.id
      = some (match findId st d.id with
              | some old => refreshListingRow old (listingValuesOfItem d) now
              | none => freshListingRow (listingValuesOfItem d) now) := by
  induction todo generalizing st with
  | nil => cases hd
  | cons x t ih =>
    simp only [List.map_cons, List.nodup_cons] at hnd
    rw [List.foldl_cons]
    rcases List.mem_cons.1 hd with heq | hmem
    · subst heq
      rw [foldl_upsertListing_frame now t _ d.id
        fun y hy hc => hnd.1 (hc ▸ List.mem_map.2 ⟨y, hy, rfl⟩)]
      exact findId_upsertListing_self st _ now
    · have hxne : x.id ≠ d.id := fun hc =>
        hnd.1 (hc ▸ List.mem_map.2 ⟨d, hmem, rfl⟩)
      rw [ih _ hnd.2 hmem,
        findId_upsertListing_other st _ now d.id (Ne.symm hxne)]

/-- C3 amended: a listing fetch failure is returned as an explicit error
result with the cache untouched; when the call succeeds it returns exactly
the number of fetched items, and every item has been upserted: an id not yet
cached is inserted with status unknown and null syncError, while an id
already cached keeps its previous status and syncError and has all other
listing fields and lastUpdated refreshed (the ON DUPLICATE KEY UPDATE column
list omits status and sync_error).  The function is total: every failure
mode is one of these result values, nothing is raised. -/
theorem fetchAndStore_amended (u : Upstream) (w : WriteOracle) (cache : Cache) (now : Nat) :
    (∀ (e : String) (hs : Nat), u.listing none = .failure e hs →
       fetchAndStoreDomains u w cache now
         = (.err e, cache, [SyncEvent.call (.domains none)])) ∧
    (∀ (p : Option (List DomainItem)) (hs k : Nat), u.listing none = .success p hs →
       (fetchAndStoreDomains u w cache now).1 = .ok k → k = (p.getD []).length) ∧
    (∀ (p : Option (List DomainItem)) (hs k : Nat), u.listing none = .success p hs →
       ((p.getD []).map (·.id)).Nodup →
       (fetchAndStoreDomains u w cache now).1 = .ok k →
       ∀ d ∈ p.getD [],
         findId (fetchAndStoreDomains u w cache now).2.1 d.id
           = some (match findId cache d.id with
                   | some old => refreshListingRow old (listingValuesOfItem d) now
                   | none => freshListingRow (listingValuesOfItem d) now)) := by
  refine ⟨?_, ?_, ?_⟩
  · intro e hs hl
    simp [fetchAndStoreDomains, hl]
  · intro p hs k hl hk
    rcases hstore : storeLoop w now (p.getD []) 0 cache with ⟨o, c1⟩
    cases o with
    | some e =>
      simp only [fetchAndStoreDomains, hl, hstore] at hk
      cases hk
    | none =>
      simp only [fetchAndStoreDomains, hl, hstore] at hk
      injection hk with h
      exact h.symm
  · intro p hs k hl hnd hk d hd
    rcases hstore : storeLoop w now (p.getD []) 0 cache with ⟨o, c1⟩
    cases o with
    | some e =>
      simp only [fetchAndStoreDomains, hl, hstore] at hk
      cases hk
    | none =>
      simp only [fetchAndStoreDomains, hl, hstore]
      have hc1 := storeLoop_none_inv w now (p.getD []) 0 cache c1 hstore
      subst hc1
      exact foldl_upsertListing_processed now (p.getD []) cache d hnd hd

/-- C3 counterexample: the cache already holds id 7 with status active; the
upstream listing returns id 7; fetchAndStoreDomains succeeds with count 1,
yet the cached row for id 7 still has status active, not unknown, because
the duplicate-key branch of the upsert does not write status.  This refutes
the claim that every listed item is upserted with status unknown. -/
theorem fetchAndStore_keeps_status_cex :
    (fetchAndStoreDomains demoUpstream wAll [cexPrevRow] 9).1 = .ok 1 ∧
    findId (fetchAndStoreDomains demoUpstream wAll [cexPrevRow] 9).2.1 7
      = some { cexPrevRow with name := "newdomain.net", lastUpdated := 9 } ∧
    ({ cexPrevRow with name := "newdomain.net", lastUpdated := 9 } : DomainRow).status
      = DomainStatus.active ∧
    DomainStatus.active ≠ DomainStatus.unknown := by
  refine ⟨rfl, rfl, rfl, by decide⟩

/-- Witness theorem for the amended C3 at concrete inputs: an upstream
listing with a duplicate of the cached id 7 and a new id 1; the call
succeeds with count 2 and the new id is inserted as a fresh
unknown-status row. -/
theorem fetchAndStore_amended_witness :
    (⟨fun _ => .success (some [demoItem, wItemOne]) 200, demoUpstream.statusOf⟩
        : Upstream).listing none = .success (some [demoItem, wItemOne]) 200 ∧
    ((([demoItem, wItemOne] : List DomainItem)).map (·.id)).Nodup ∧
    (fetchAndStoreDomains
        ⟨fun _ => .success (some [demoItem, wItemOne]) 200, demoUpstream.statusOf⟩
        wAll [cexPrevRow] 9).1 = .ok 2 ∧
    findId (fetchAndStoreDomains
        ⟨fun _ => .success (some [demoItem, wItemOne]) 200, demoUpstream.statusOf⟩
        wAll [cexPrevRow] 9).2.1 wItemOne.id
      = some (match findId [cexPrevRow] wItemOne.id with
              | some old => refreshListingRow old (listingValuesOfItem wItemOne) 9
              | none => freshListingRow (listingValuesOfItem wItemOne) 9) :=
  ⟨rfl, by decide, rfl,
   (fetchAndStore_amended
      ⟨fun _ => .success (some [demoItem, wItemOne]) 200, demoUpstream.statusOf⟩
      wAll [cexPrevRow] 9).2.2 (some [demoItem, wItemOne]) 200 2 rfl (by decide) rfl
      wItemOne (by decide)⟩

/-- C9: forceRefresh clears the cache and refetches; when the listing
succeeds and the writes go through, the result is the fetched count, the
background status sync is triggered, and every id that does not occur in
the fresh listing, such as a seeded stale id, is absent afterwards. -/
theorem refresh_removes_stale (u : Upstream) (w : WriteOracle) (cache : Cache) (now : Nat)
    (p : Option (List DomainItem)) (hs : Nat)
    (hl : u.listing none = .success p hs) (hw : ∀ j, w j = none) :
    (refreshDomains u w cache now).1 = .ok (p.getD []).length ∧
    (refreshDomains u w cache now).2.2.1 = true ∧
    ∀ i : Nat, (∀ d ∈ p.getD [], d.id ≠ i) →
      findId (refreshDomains u w cache now).2.1 i = none := by
  have hstore := storeLoop_all_ok w now (p.getD []) 0 [] hw
  have hfetch : fetchAndStoreDomains u w ([] : Cache) now
      = (.ok (p.getD []).length,
         (p.getD []).foldl (fun c d => upsertListing c (listingValuesOfItem d) now) [],
         [SyncEvent.call (.domains none)]) := by
    simp only [fetchAndStoreDomains, hl, hstore]
  refine ⟨?_, ?_, ?_⟩
  · rw [refreshDomains, hfetch]
  · rw [refreshDomains, hfetch]
  · intro i hni
    rw [refreshDomains, hfetch]
    show findId ((p.getD []).foldl (fun c d => upsertListing c (listingValuesOfItem d) now) []) i
      = none
    rw [foldl_upsertListing_frame now (p.getD []) [] i hni]
    rfl

/-- Witness for C9: after forceRefresh against an upstream listing holding
only id 7, the seeded id 99 is gone and the status sync was triggered. -/
theorem refresh_removes_stale_witness :
    demoUpstream.listing none = .success (some [demoItem]) 200 ∧
    (refreshDomains demoUpstream wAll [staleRow] 9).2.2.1 = true ∧
    findId (refreshDomains demoUpstream wAll [staleRow] 9).2.1 99 = none :=
  ⟨rfl,
   (refresh_removes_stale demoUpstream wAll [staleRow] 9 (some [demoItem]) 200 rfl
      fun _ => rfl).2.1,
   (refresh_removes_stale demoUpstream wAll [staleRow] 9 (some [demoItem]) 200 rfl
      fun _ => rfl).2.2 99 (by decide)⟩

end PleskCache
